import Mathlib

/-!
Shallow embedding of the MQ prime-checking consumer (consumer.js) and proofs
about it.

The consumer connects to a message broker, opens an input and an output
queue, polls the input queue into a fixed 1024-byte buffer, parses each
message as JSON, checks the parsed value for primality with a Miller-Rabin
test over arbitrary-precision integers, and posts a response record.

Modelling conventions:
- JS BigInt values are arbitrary-precision integers; they are modelled as
  Lean Int where a sign can occur and as Nat where the code only ever
  handles non-negative values (for non-negative operands the JS operators
  / and % on BigInt agree with Nat division and Nat mod, both truncating).
- The JS loops are modelled as recursive functions with the same body.
- External I/O (the broker library, JSON.parse, Math.random) is modelled by
  parameters: each random draw is an oracle argument, each broker outcome is
  an explicit event value.
-/

namespace Consumer

/-! ## Miller-Rabin and modular exponentiation (consumer.js lines 112-168) -/

/-- Loop of modPow (consumer.js lines 160-166):
while (exponent > 0n) {
  if (exponent % 2n === 1n) result = (result * base) % modulus;
  exponent = exponent / 2n; base = (base * base) % modulus; }
One recursive call per loop iteration; the mutable variables are the
arguments. -/
def modPowGo (modulus : ℕ) (base exponent result : ℕ) : ℕ :=
  if 0 < exponent then
    modPowGo modulus ((base * base) % modulus) (exponent / 2)
      (if exponent % 2 = 1 then (result * base) % modulus else result)
  else result
termination_by exponent
decreasing_by exact Nat.div_lt_self (by omega) (by omega)

/-- modPow (consumer.js lines 156-168): binary exponentiation.
if (modulus === 1n) return 0n; let result = 1n; base = base % modulus; then
the loop modelled by modPowGo. -/
def modPow (base exponent modulus : ℕ) : ℕ :=
  if modulus = 1 then 0 else modPowGo modulus (base % modulus) exponent 1

/-- Loop of millerRabin (consumer.js lines 125-130):
let s = 0n; let d = n - 1n; while (d % 2n === 0n) { d /= 2n; s += 1n; }
Returns (s, d). The source loop does not terminate on input 0; the d =/= 0
guard below only rules that input out and does not change the result on any
input on which the source terminates (millerRabin applies it to n - 1 with
n odd and at least 5). -/
def decompose (d : ℕ) : ℕ × ℕ :=
  if d % 2 = 0 ∧ d ≠ 0 then
    let p := decompose (d / 2)
    (p.1 + 1, p.2)
  else (0, d)
termination_by d
decreasing_by exact Nat.div_lt_self (by omega) (by omega)

/-- Inner loop of a millerRabin round (consumer.js lines 137-140):
for (let r = 1n; r < s; r++) { x = modPow(x, 2n, n);
  if (x === n - 1n) continue WitnessLoop; }
The argument counts the remaining iterations (s - 1 at the call site);
the result is true when some squaring step hits n - 1, meaning the round
passes via the continue, and false when the loop runs out, meaning the
source hits the return false on line 141. -/
def squareLoop (n x : ℕ) : ℕ → Bool
  | 0 => false
  | r + 1 =>
    let x2 := modPow x 2 n
    if x2 = n - 1 then true else squareLoop n x2 r

/-- One round of the witness loop (consumer.js lines 135-141) for a fixed
witness a: let x = modPow(a, d, n); if (x === 1n || x === n - 1n) continue;
then the inner squaring loop; true means the round does not reject n. -/
def witnessRound (n d s a : ℕ) : Bool :=
  let x := modPow a d n
  if x = 1 ∨ x = n - 1 then true else squareLoop n x (s - 1)

/-- WitnessLoop (consumer.js lines 132-142): k rounds, each with its own
randomly drawn witness; the source returns false as soon as one round
rejects, so the overall value is the conjunction of the round outcomes.
ws i is the witness drawn in round i. -/
def witnessLoop (n d s : ℕ) (ws : ℕ → ℕ) : ℕ → Bool
  | 0 => true
  | k + 1 => witnessRound n d s (ws k) && witnessLoop n d s ws k

/-- millerRabin (consumer.js lines 121-144). n is a JS BigInt, hence an
integer that may be negative; k is the round count. The random draw of
each round (line 134) is modelled by the oracle ws giving the witness used
in round i; drawWitness below models the distribution of one draw. n % 2n
is the JS truncating remainder Int.tmod (for the values reaching that test
it agrees with the Euclidean remainder). -/
def millerRabin (n : ℤ) (k : ℕ) (ws : ℕ → ℕ) : Bool :=
  if n = 2 ∨ n = 3 then true
  else if n < 2 ∨ Int.tmod n 2 = 0 then false
  else
    let sd := decompose (n.toNat - 1)
    witnessLoop n.toNat sd.2 sd.1 ws k

/-- Witness draw of one round (consumer.js line 134):
const a = 2n + BigInt(Math.floor(Math.random() * Number(n - 4n)));
Math.random() is modelled as an arbitrary rational u with 0 <= u < 1 and
the conversion Number(n - 4n) as exact, so the draw is 2 + floor(u*(n-4)).
This idealizes the IEEE-754 rounding of Math.random and of Number on
values beyond 2^53. -/
def drawWitness (n : ℤ) (u : ℚ) : ℤ :=
  2 + ⌊u * ((n : ℚ) - 4)⌋

/-- A value v is a possible outcome of the witness draw for n: some
admissible random input u produces it. -/
def canDraw (n v : ℤ) : Prop :=
  ∃ u : ℚ, 0 ≤ u ∧ u < 1 ∧ drawWitness n u = v

/-! ## Message processing (consumer.js lines 44-110) -/

/-- JS values that can appear in a parsed JSON message, plus undefined,
which is what reading a missing property yields. -/
inductive JSVal where
  | undefined
  | null
  | bool (b : Bool)
  | num (q : ℚ)
  | str (s : String)
  | arr (xs : List JSVal)
  | obj (fields : List (String × JSVal))

/-- Property read data.k: on an object, the field value (undefined when the
field is missing); on any non-object JSON value, undefined. JSON.parse
yields objects without duplicate keys (last occurrence wins), so fields is
taken duplicate-free and the first match is the field. -/
def getProp (v : JSVal) (k : String) : JSVal :=
  match v with
  | .obj fields =>
    match fields.lookup k with
    | some x => x
    | none => .undefined
  | _ => .undefined

/-- data.hasOwnProperty(k) on a parsed JSON value: only objects have own
properties here. -/
def hasOwn (v : JSVal) (k : String) : Bool :=
  match v with
  | .obj fields => fields.any (fun p => p.1 == k)
  | _ => false

/-- Test v === undefined. -/
def isUndefined (v : JSVal) : Bool :=
  match v with
  | .undefined => true
  | _ => false

/-- Decimal digit run to a number; none when a non-digit occurs. Used by
the model of the BigInt string conversion. -/
def digitsToNat (cs : List Char) : Option ℕ :=
  cs.foldl
    (fun acc c =>
      acc.bind fun v => if c.isDigit then some (10 * v + (c.toNat - 48)) else none)
    (some 0)

/-- Model of the JS builtin BigInt(string): the empty string gives 0, an
optional sign followed by at least one decimal digit gives that integer,
anything else throws (none). (The builtin also trims whitespace and accepts
0x/0o/0b prefixes; those string shapes are not modelled and map to none.) -/
def strToBigInt (s : String) : Option ℤ :=
  match s.data with
  | [] => some 0
  | '-' :: rest =>
    if rest.isEmpty then none else (digitsToNat rest).map (fun v => -(v : ℤ))
  | '+' :: rest =>
    if rest.isEmpty then none else (digitsToNat rest).map (fun v => (v : ℤ))
  | cs => (digitsToNat cs).map (fun v => (v : ℤ))

/-- Model of the JS builtin conversion BigInt(v) (consumer.js line 65) on a
parsed JSON value: booleans give 0 or 1, an integral number gives itself, a
string is parsed by strToBigInt, everything else throws (none; the
toString coercion of arrays and objects is conservatively modelled as a
throw). -/
def jsBigInt : JSVal → Option ℤ
  | .bool b => some (if b then 1 else 0)
  | .num q => if q.den = 1 then some q.num else none
  | .str s => strToBigInt s
  | _ => none

/-- Response object built on consumer.js lines 74-78: id and value are the
fields read from the parsed message, prime the Miller-Rabin verdict. -/
structure ResultRecord where
  id : JSVal
  value : JSVal
  prime : Bool

/-- Observable outcome of processMessage: either a response record is
passed to sendResponse, or the message is dropped on one of the three
early-return / catch paths (lines 59-62, 66-69, 81-83). -/
inductive ProcOutcome where
  | published (r : ResultRecord)
  | droppedMissingFields
  | droppedBadValue
  | droppedParseError

/-- processMessage (consumer.js lines 54-84). The input is the result of
JSON.parse on the buffered message text: none models a parse exception,
which the surrounding try/catch turns into a log-and-return. ws is the
oracle for the five random witness draws inside millerRabin. -/
def processMessage (parsed : Option JSVal) (ws : ℕ → ℕ) : ProcOutcome :=
  match parsed with
  | none => .droppedParseError
  | some data =>
    if !hasOwn data "id" || isUndefined (getProp data "value") then
      .droppedMissingFields
    else
      match jsBigInt (getProp data "value") with
      | none => .droppedBadValue
      | some value =>
        let isPrime := millerRabin value 5 ws
        .published ⟨getProp data "id", getProp data "value", isPrime⟩

/-! ## sendResponse (consumer.js lines 93-110) -/

/-- Observable outcome of sendResponse: with no output handle it logs and
returns before any put (lines 99-102, there is no throw on that path);
with a handle it calls PutSync, whose own error is only logged. -/
inductive SendResult where
  | droppedNoHandle
  | putAttempted
deriving DecidableEq

/-- sendResponse (consumer.js lines 93-110) as a function of the global
outQueueHandle (line 42, none while the output queue was never opened)
and the response object. -/
def sendResponse (outQueueHandle : Option ℕ) (_responseObj : ResultRecord) :
    SendResult :=
  match outQueueHandle with
  | none => .droppedNoHandle
  | some _ => .putAttempted

/-! ## Polling loop (consumer.js lines 238-266) -/

/-- Outcome of one GetSync call (consumer.js line 247) as seen by the
callback: the no-message reason code, any other error, or a received
message carrying the wire payload bytes. -/
inductive RecvEvent where
  | noMsg
  | failure
  | message (payload : List ℕ)
deriving DecidableEq

/-- What the callback does next: rescheduled means a fresh getMessage
iteration was scheduled through setImmediate (a new unit of work after the
stack clears, lines 252 and 262, not a direct recursive call); halted
means the callback returned without scheduling anything (line 255). -/
inductive PollStep where
  | rescheduled
  | halted
deriving DecidableEq

/-- Control outcome of the GetSync callback (consumer.js lines 247-263):
MQRC_NO_MSG_AVAILABLE reschedules, any other error returns, a received
message is processed and then reschedules. -/
def getMessageStep : RecvEvent → PollStep
  | .noMsg => .rescheduled
  | .failure => .halted
  | .message _ => .rescheduled

/-- The poll loop is still running after n callback completions, given the
stream of receive events: iteration n + 1 happens exactly when iteration n
happened and its callback rescheduled. -/
def pollAlive (evs : ℕ → RecvEvent) : ℕ → Bool
  | 0 => true
  | n + 1 => pollAlive evs n && decide (getMessageStep (evs n) = .rescheduled)

/-! ## Receive buffer (consumer.js lines 245-259) -/

/-- Buffer.alloc(1024) on consumer.js line 245. -/
def bufferSize : ℕ := 1024

/-- The zero-filled 1024-byte buffer. -/
def allocBuffer : List ℕ :=
  List.replicate bufferSize 0

/-- Buffer contents after GetSync copies the wire payload into the fixed
buffer: at most the first 1024 payload bytes, the rest of the buffer
unchanged zeroes. -/
def fillBuffer (payload : List ℕ) : List ℕ :=
  payload.take bufferSize ++ allocBuffer.drop (min payload.length bufferSize)

/-- msgBuffer = buf.slice(0, len) on consumer.js line 259; slice clamps len
to the 1024-byte buffer length. This is the byte sequence handed to
processMessage. -/
def msgBuffer (payload : List ℕ) (len : ℕ) : List ℕ :=
  (fillBuffer payload).take len

/-! ## startConsumer (consumer.js lines 177-270) -/

/-- Outcomes of the three broker calls of one startConsumer attempt:
Connx, Open on the input queue, Open on the output queue. -/
structure StartEnv where
  connectOk : Bool
  openInOk : Bool
  openOutOk : Bool
deriving DecidableEq

/-- Observable outcome of one startConsumer attempt: either a retry of the
whole sequence was scheduled with setTimeout(startConsumer, delayMs), with
disconnected recording whether mq.Disc was called first, or polling began
(getMessage() reached on line 266). -/
inductive StartResult where
  | retry (delayMs : ℕ) (disconnected : Bool)
  | polling
deriving DecidableEq

/-- startConsumer (consumer.js lines 177-270) as a function of the three
broker call outcomes: Connx failure (lines 198-203) schedules a retry in
5000 ms without a disconnect; either Open failure (lines 212-218 and
227-233) disconnects the session and schedules a retry in 5000 ms; with
all three successful the poll loop starts. -/
def startConsumer (env : StartEnv) : StartResult :=
  if !env.connectOk then .retry 5000 false
  else if !env.openInOk then .retry 5000 true
  else if !env.openOutOk then .retry 5000 true
  else .polling

/-- Attempt n of the startConsumer retry sequence takes place, given the
stream of broker outcomes per attempt: attempt 0 is the module-load call
(line 273), and attempt n + 1 happens exactly when attempt n happened and
did not reach polling (every non-polling outcome schedules the retry). -/
def attemptMade (envs : ℕ → StartEnv) : ℕ → Bool
  | 0 => true
  | n + 1 => attemptMade envs n && decide (startConsumer (envs n) ≠ .polling)

/-! ## Correctness of modPow -/

/-- Auxiliary exponent identity for the squaring step. -/
theorem mul_self_pow_eq (b k : ℕ) : (b * b) ^ k = b ^ (2 * k) := by
  rw [mul_pow, two_mul, pow_add]

/-- Reducing both factors before a product mod m does not change the
residue. -/
theorem mul_mod_pow_mod (m a b k : ℕ) :
    a % m * (b % m) ^ k % m = a * b ^ k % m :=
  (Nat.mod_modEq a m).mul ((Nat.mod_modEq b m).pow k)

/-- Loop invariant of modPowGo: with the accumulator already reduced, the
loop computes the accumulated product times the remaining power, mod m. -/
theorem modPowGo_eq (m : ℕ) (hm : 2 ≤ m) :
    ∀ e b r : ℕ, r < m → modPowGo m b e r = r * b ^ e % m := by
  intro e
  induction e using Nat.strong_induction_on with
  | _ e ih =>
    intro b r hr
    rw [modPowGo]
    by_cases he : 0 < e
    · rw [if_pos he]
      have hlt : e / 2 < e := Nat.div_lt_self he one_lt_two
      have hr' : (if e % 2 = 1 then r * b % m else r) < m := by
        split
        · exact Nat.mod_lt _ (by omega)
        · exact hr
      rw [ih (e / 2) hlt ((b * b) % m) _ hr']
      by_cases hodd : e % 2 = 1
      · rw [if_pos hodd]
        have he2 : 2 * (e / 2) + 1 = e := by omega
        rw [mul_mod_pow_mod, mul_self_pow_eq]
        congr 1
        rw [mul_assoc, ← pow_succ', he2]
      · rw [if_neg hodd]
        have he2 : 2 * (e / 2) = e := by omega
        conv_lhs => rw [← Nat.mod_eq_of_lt hr]
        rw [mul_mod_pow_mod, mul_self_pow_eq, he2]
    · rw [if_neg he]
      have : e = 0 := by omega
      subst this
      simp [Nat.mod_eq_of_lt hr]

/-- Helper form of the modPow correctness used throughout the development:
for a positive modulus, modPow computes the power mod the modulus. -/
theorem modPow_correct (base exponent modulus : ℕ) (h : 1 ≤ modulus) :
    modPow base exponent modulus = base ^ exponent % modulus := by
  unfold modPow
  by_cases h1 : modulus = 1
  · subst h1
    simp [Nat.mod_one]
  · rw [if_neg h1, modPowGo_eq modulus (by omega) exponent (base % modulus) 1 (by omega),
      one_mul, ← Nat.pow_mod]

/-- The result of modPow is a reduced residue. -/
theorem modPow_lt (b e m : ℕ) (hm : 2 ≤ m) : modPow b e m < m := by
  rw [modPow_correct b e m (by omega)]
  exact Nat.mod_lt _ (by omega)

/-! ## Correctness of the factor-out-twos loop -/

/-- decompose writes its nonzero input as odd part times a power of two. -/
theorem decompose_spec :
    ∀ d : ℕ, d ≠ 0 →
      (decompose d).2 % 2 = 1 ∧ (decompose d).2 * 2 ^ (decompose d).1 = d := by
  intro d
  induction d using Nat.strong_induction_on with
  | _ d ih =>
    intro hd
    rw [decompose]
    by_cases h2 : d % 2 = 0
    · rw [if_pos ⟨h2, hd⟩]
      have hdd : d / 2 ≠ 0 := by omega
      obtain ⟨ho, he⟩ := ih (d / 2) (Nat.div_lt_self (by omega) one_lt_two) hdd
      refine ⟨ho, ?_⟩
      rw [pow_succ, ← mul_assoc, he]
      omega
    · rw [if_neg (by tauto)]
      exact ⟨by omega, by simp⟩

/-! ## Casting helpers between reduced residues and ZMod p -/

/-- Nat casts below the modulus are injective into ZMod. -/
theorem natCast_zmod_inj (p x y : ℕ) (hx : x < p) (hy : y < p)
    (h : (x : ZMod p) = (y : ZMod p)) : x = y := by
  have hv := congrArg ZMod.val h
  rwa [ZMod.val_cast_of_lt hx, ZMod.val_cast_of_lt hy] at hv

/-- modPow computes the power of the cast in ZMod p. -/
theorem cast_modPow (p b e : ℕ) (hp : 2 ≤ p) :
    ((modPow b e p : ℕ) : ZMod p) = (b : ZMod p) ^ e := by
  rw [modPow_correct b e p (by omega), ZMod.natCast_mod, Nat.cast_pow]

/-- The residue p - 1 casts to -1 in ZMod p. -/
theorem cast_p_sub_one (p : ℕ) (hp : 1 ≤ p) : ((p - 1 : ℕ) : ZMod p) = -1 := by
  rw [Nat.cast_sub hp, Nat.cast_one, ZMod.natCast_self, zero_sub]

/-! ## The squaring loop hits n - 1 when some power does -/

/-- If the 2-power chain starting at x reaches the residue n - 1 within the
iteration budget (at step j with 1 <= j <= r), squareLoop returns true. -/
theorem squareLoop_true (n : ℕ) (hn : 2 ≤ n) :
    ∀ r x j : ℕ, 1 ≤ j → j ≤ r → x ^ 2 ^ j % n = n - 1 →
      squareLoop n x r = true := by
  intro r
  induction r with
  | zero =>
    intro x j h1 h2 _
    omega
  | succ r ih =>
    intro x j h1 h2 hhit
    show (if modPow x 2 n = n - 1 then true
          else squareLoop n (modPow x 2 n) r) = true
    have hx2 : modPow x 2 n = x ^ 2 % n := modPow_correct x 2 n (by omega)
    by_cases hstop : modPow x 2 n = n - 1
    · rw [if_pos hstop]
    · rw [if_neg hstop]
      have hj2 : 2 ≤ j := by
        rcases Nat.lt_or_ge j 2 with h | h
        · exfalso
          have hj1 : j = 1 := by omega
          rw [hj1, pow_one] at hhit
          exact hstop (hx2.trans hhit)
        · exact h
      apply ih (modPow x 2 n) (j - 1) (by omega) (by omega)
      rw [hx2, ← Nat.pow_mod, ← pow_mul]
      have hexp : 2 * 2 ^ (j - 1) = 2 ^ j := by
        rw [← pow_succ']
        congr 1
        omega
      rw [hexp]
      exact hhit

/-! ## A prime passes every witness round -/

/-- For an odd prime p at least 5, with p - 1 = d * 2 ^ s, no witness a in
the interval [2, p - 2] rejects p: the classical argument that in the
field ZMod p the 2-power chain of a ^ d must pass through 1, and the last
value before the first 1 is a square root of 1 other than 1, hence -1. -/
theorem witnessRound_prime (p : ℕ) (hp : p.Prime) (h5 : 5 ≤ p)
    (d s : ℕ) (hds : d * 2 ^ s = p - 1) (hs : 1 ≤ s)
    (a : ℕ) (ha2 : 2 ≤ a) (hap : a ≤ p - 2) :
    witnessRound p d s a = true := by
  haveI : Fact p.Prime := ⟨hp⟩
  have hp2 : 2 ≤ p := hp.two_le
  have hA0 : (a : ZMod p) ≠ 0 := by
    rw [Ne, ZMod.natCast_zmod_eq_zero_iff_dvd]
    intro hdvd
    have := Nat.le_of_dvd (by omega) hdvd
    omega
  have hferm : (a : ZMod p) ^ (2 ^ s * d) = 1 := by
    rw [mul_comm (2 ^ s) d, hds]
    exact ZMod.pow_card_sub_one_eq_one hA0
  have hex : ∃ j, (a : ZMod p) ^ (2 ^ j * d) = 1 := ⟨s, hferm⟩
  set j := Nat.find hex with hjdef
  have hj : (a : ZMod p) ^ (2 ^ j * d) = 1 := Nat.find_spec hex
  have hjs : j ≤ s := Nat.find_min' hex hferm
  have hmin : ∀ t, t < j → (a : ZMod p) ^ (2 ^ t * d) ≠ 1 :=
    fun t ht => Nat.find_min hex ht
  rcases Nat.eq_zero_or_pos j with hj0 | hjpos
  · have had : (a : ZMod p) ^ d = 1 := by
      have h := hj
      rw [hj0, pow_zero, one_mul] at h
      exact h
    have hx1 : modPow a d p = 1 := by
      apply natCast_zmod_inj p _ _ (modPow_lt a d p hp2) (by omega)
      rw [cast_modPow p a d hp2, had, Nat.cast_one]
    simp [witnessRound, hx1]
  · obtain ⟨t, ht⟩ : ∃ t, j = t + 1 := ⟨j - 1, by omega⟩
    have hy2 : (a : ZMod p) ^ (2 ^ t * d) * (a : ZMod p) ^ (2 ^ t * d) = 1 := by
      rw [← pow_add]
      have hxp : 2 ^ t * d + 2 ^ t * d = 2 ^ (t + 1) * d := by ring
      rw [hxp, ← ht]
      exact hj
    have hy1 : (a : ZMod p) ^ (2 ^ t * d) ≠ 1 := hmin t (by omega)
    have hym : (a : ZMod p) ^ (2 ^ t * d) = -1 :=
      (mul_self_eq_one_iff.mp hy2).resolve_left hy1
    rcases Nat.eq_zero_or_pos t with ht0 | htpos
    · have had : (a : ZMod p) ^ d = -1 := by
        have h := hym
        rw [ht0, pow_zero, one_mul] at h
        exact h
      have hx : modPow a d p = p - 1 := by
        apply natCast_zmod_inj p _ _ (modPow_lt a d p hp2) (by omega)
        rw [cast_modPow p a d hp2, had, cast_p_sub_one p (by omega)]
      simp [witnessRound, hx]
    · have hhit : modPow a d p ^ 2 ^ t % p = p - 1 := by
        apply natCast_zmod_inj p _ _ (Nat.mod_lt _ (by omega)) (by omega)
        rw [ZMod.natCast_mod, Nat.cast_pow, cast_modPow p a d hp2, ← pow_mul,
          mul_comm d (2 ^ t), hym, cast_p_sub_one p (by omega)]
      have hsl : squareLoop p (modPow a d p) (s - 1) = true :=
        squareLoop_true p hp2 (s - 1) (modPow a d p) t htpos (by omega) hhit
      show (if modPow a d p = 1 ∨ modPow a d p = p - 1 then true
            else squareLoop p (modPow a d p) (s - 1)) = true
      split
      · rfl
      · exact hsl

/-- All rounds pass when every single round passes. -/
theorem witnessLoop_all (n d s : ℕ) (ws : ℕ → ℕ)
    (h : ∀ i, witnessRound n d s (ws i) = true) :
    ∀ k, witnessLoop n d s ws k = true := by
  intro k
  induction k with
  | zero => rfl
  | succ k ihk => simp [witnessLoop, h k, ihk]

/-- On an odd n at least 5 the top-level tests fall through and millerRabin
is the witness loop on the decomposition of n - 1. -/
theorem millerRabin_odd_ge5 (n : ℕ) (h5 : 5 ≤ n) (hodd : n % 2 = 1)
    (k : ℕ) (ws : ℕ → ℕ) :
    millerRabin (n : ℤ) k ws =
      witnessLoop n (decompose (n - 1)).2 (decompose (n - 1)).1 ws k := by
  unfold millerRabin
  rw [if_neg (by omega), if_neg]
  · rw [Int.toNat_natCast]
  · push_neg
    refine ⟨by omega, ?_⟩
    rw [Int.tmod_eq_emod (by omega) (by omega)]
    omega

/-! ## Claim theorems -/

/-- C1: for every prime n >= 2 and every round count k >= 1, millerRabin
returns true regardless of which witnesses are drawn (any witnesses from
the interval [2, n - 2] the draw is specified over; for primes below 5 no
draw happens and no constraint is needed): the test has no false negatives
on primes. In particular it is true on 2, 3, 5, 97 and 7919 with k = 5,
as the witness theorem instantiates. -/
theorem millerRabin_prime_never_rejected (p : ℕ) (hp : p.Prime) (k : ℕ)
    (ws : ℕ → ℕ) (hws : ∀ i, 5 ≤ p → 2 ≤ ws i ∧ ws i ≤ p - 2) :
    millerRabin (p : ℤ) k ws = true := by
  by_cases h2 : p = 2
  · subst h2
    norm_num [millerRabin]
  by_cases h3 : p = 3
  · subst h3
    norm_num [millerRabin]
  have hge2 := hp.two_le
  have h5 : 5 ≤ p := by
    rcases Nat.lt_or_ge p 5 with h | h
    · exfalso
      have h4 : p = 4 := by omega
      rw [h4] at hp
      norm_num at hp
    · exact h
  have hodd : p % 2 = 1 := hp.eq_two_or_odd.resolve_left h2
  rw [millerRabin_odd_ge5 p h5 hodd]
  obtain ⟨hd_odd, hds⟩ := decompose_spec (p - 1) (by omega)
  have hs1 : 1 ≤ (decompose (p - 1)).1 := by
    rcases Nat.eq_zero_or_pos (decompose (p - 1)).1 with h0 | h
    · exfalso
      rw [h0, pow_zero, mul_one] at hds
      omega
    · exact h
  apply witnessLoop_all
  intro i
  exact witnessRound_prime p hp h5 _ _ hds hs1 (ws i) (hws i h5).1 (hws i h5).2

/-- Witness for C1: the curated primes of the claim, at k = 5, with the
in-range witness oracle that always draws 2. -/
theorem millerRabin_prime_never_rejected_witness :
    (Nat.Prime 2 ∧ millerRabin ((2 : ℕ) : ℤ) 5 (fun _ => 2) = true) ∧
    (Nat.Prime 3 ∧ millerRabin ((3 : ℕ) : ℤ) 5 (fun _ => 2) = true) ∧
    (Nat.Prime 5 ∧ millerRabin ((5 : ℕ) : ℤ) 5 (fun _ => 2) = true) ∧
    (Nat.Prime 97 ∧ millerRabin ((97 : ℕ) : ℤ) 5 (fun _ => 2) = true) ∧
    (Nat.Prime 7919 ∧ millerRabin ((7919 : ℕ) : ℤ) 5 (fun _ => 2) = true) :=
  ⟨⟨by norm_num, millerRabin_prime_never_rejected 2 (by norm_num) 5 _
      (fun i h => absurd h (by omega))⟩,
   ⟨by norm_num, millerRabin_prime_never_rejected 3 (by norm_num) 5 _
      (fun i h => absurd h (by omega))⟩,
   ⟨by norm_num, millerRabin_prime_never_rejected 5 (by norm_num) 5 _
      (fun i _ => by omega)⟩,
   ⟨by norm_num, millerRabin_prime_never_rejected 97 (by norm_num) 5 _
      (fun i _ => by omega)⟩,
   ⟨by norm_num, millerRabin_prime_never_rejected 7919 (by norm_num) 5 _
      (fun i _ => by omega)⟩⟩

/-- C2: for non-negative base and exponent and positive modulus (the whole
domain once JS BigInt values are restricted as the claim states), modPow
computes exactly base ^ exponent mod modulus, with no fixed-width
overflow anywhere since all arithmetic is over unbounded naturals. -/
theorem modPow_eq_pow_mod (base exponent modulus : ℕ) (h : 1 ≤ modulus) :
    modPow base exponent modulus = base ^ exponent % modulus :=
  modPow_correct base exponent modulus h

/-- Witness for C2 at a concrete input whose intermediate products exceed
64 bits. -/
theorem modPow_eq_pow_mod_witness :
    1 ≤ 10000000019 ∧
      modPow 9999999999 123 10000000019 = 9999999999 ^ 123 % 10000000019 :=
  ⟨by norm_num, modPow_eq_pow_mod 9999999999 123 10000000019 (by norm_num)⟩

/-- Every admissible random input lands the draw in [2, n - 3]: the top
value n - 2 of the interval claimed in the spec is out of reach, because
floor(u * (n - 4)) is at most n - 5 for u < 1. -/
theorem drawWitness_mem (n : ℤ) (hn : 5 ≤ n) (u : ℚ)
    (hu0 : 0 ≤ u) (hu1 : u < 1) :
    2 ≤ drawWitness n u ∧ drawWitness n u ≤ n - 3 := by
  have hN : (0 : ℚ) < (n : ℚ) - 4 := by
    have : (5 : ℚ) ≤ (n : ℚ) := by exact_mod_cast hn
    linarith
  unfold drawWitness
  have h0 : 0 ≤ ⌊u * ((n : ℚ) - 4)⌋ :=
    Int.floor_nonneg.mpr (mul_nonneg hu0 hN.le)
  have h1 : ⌊u * ((n : ℚ) - 4)⌋ < n - 4 := by
    rw [Int.floor_lt]
    push_cast
    calc u * ((n : ℚ) - 4) < 1 * ((n : ℚ) - 4) :=
          mul_lt_mul_of_pos_right hu1 hN
      _ = (n : ℚ) - 4 := one_mul _
  omega

/-- Every value of [2, n - 3] is a possible draw: the random input
(v - 2) / (n - 4) produces v. -/
theorem canDraw_of_mem (n : ℤ) (hn : 5 ≤ n) (v : ℤ)
    (h2 : 2 ≤ v) (h3 : v ≤ n - 3) : canDraw n v := by
  have hN : (0 : ℚ) < (n : ℚ) - 4 := by
    have : (5 : ℚ) ≤ (n : ℚ) := by exact_mod_cast hn
    linarith
  have hv2 : (2 : ℚ) ≤ (v : ℚ) := by exact_mod_cast h2
  have hv3 : (v : ℚ) ≤ (n : ℚ) - 3 := by
    have : ((v : ℤ) : ℚ) ≤ ((n - 3 : ℤ) : ℚ) := by exact_mod_cast h3
    push_cast at this
    linarith
  refine ⟨((v : ℚ) - 2) / ((n : ℚ) - 4), ?_, ?_, ?_⟩
  · apply div_nonneg _ hN.le
    linarith
  · rw [div_lt_one hN]
    linarith
  · unfold drawWitness
    rw [div_mul_cancel₀ _ hN.ne']
    have hcast : (v : ℚ) - 2 = ((v - 2 : ℤ) : ℚ) := by push_cast; ring
    rw [hcast, Int.floor_intCast]
    omega

/-- The set of random inputs producing a given drawable value v is the
half-open rational interval [(v-2)/(n-4), (v-1)/(n-4)): consecutive
intervals of equal length 1/(n-4), which is the uniformity of the draw. -/
theorem drawWitness_preimage (n : ℤ) (hn : 5 ≤ n) (v : ℤ)
    (h2 : 2 ≤ v) (h3 : v ≤ n - 3) :
    {u : ℚ | 0 ≤ u ∧ u < 1 ∧ drawWitness n u = v} =
      Set.Ico (((v : ℚ) - 2) / ((n : ℚ) - 4))
        (((v : ℚ) - 1) / ((n : ℚ) - 4)) := by
  have hN : (0 : ℚ) < (n : ℚ) - 4 := by
    have : (5 : ℚ) ≤ (n : ℚ) := by exact_mod_cast hn
    linarith
  have hv2 : (2 : ℚ) ≤ (v : ℚ) := by exact_mod_cast h2
  have hv3 : (v : ℚ) ≤ (n : ℚ) - 3 := by
    have : ((v : ℤ) : ℚ) ≤ ((n - 3 : ℤ) : ℚ) := by exact_mod_cast h3
    push_cast at this
    linarith
  ext u
  simp only [Set.mem_setOf_eq, Set.mem_Ico]
  constructor
  · rintro ⟨hu0, hu1, hd⟩
    unfold drawWitness at hd
    have hfl : ⌊u * ((n : ℚ) - 4)⌋ = v - 2 := by omega
    rw [Int.floor_eq_iff] at hfl
    obtain ⟨hlo, hhi⟩ := hfl
    push_cast at hlo hhi
    constructor
    · rw [div_le_iff₀ hN]
      linarith
    · rw [lt_div_iff₀ hN]
      linarith
  · rintro ⟨hlo, hhi⟩
    rw [div_le_iff₀ hN] at hlo
    rw [lt_div_iff₀ hN] at hhi
    have hu0 : 0 ≤ u := by
      by_contra hc
      push_neg at hc
      have : u * ((n : ℚ) - 4) < 0 := mul_neg_of_neg_of_pos hc hN
      linarith
    have hu1 : u < 1 := by
      by_contra hc
      push_neg at hc
      have : (n : ℚ) - 4 ≤ u * ((n : ℚ) - 4) := le_mul_of_one_le_left hN.le hc
      linarith
    refine ⟨hu0, hu1, ?_⟩
    unfold drawWitness
    have hfl : ⌊u * ((n : ℚ) - 4)⌋ = v - 2 := by
      rw [Int.floor_eq_iff]
      push_cast
      exact ⟨by linarith, by linarith⟩
    omega

/-- C4 counterexample: the claim makes n - 2 a possible outcome of the
draw; at n = 7 that value is 5, yet no admissible random input draws 5
(the draw is 2 + floor(3u) with 3u < 3). -/
theorem drawWitness_top_value_unreachable : ¬ canDraw 7 5 := by
  intro h
  obtain ⟨u, h0, h1, hd⟩ := h
  have hb := drawWitness_mem 7 (by norm_num) u h0 h1
  omega

/-- C4 amended: for every n >= 5, each round draws its witness uniformly
from the integer interval [2, n - 3] (not [2, n - 2]): every draw lands in
[2, n - 3]; every value of [2, n - 3] is drawable; the random inputs
producing a value v form the interval [(v-2)/(n-4), (v-1)/(n-4)), whose
length 1/(n-4) does not depend on v (equal likelihood under the uniform
random source); and the value n - 2 can never be drawn. -/
theorem drawWitness_uniform_on_interval (n : ℤ) (hn : 5 ≤ n) :
    (∀ u : ℚ, 0 ≤ u → u < 1 →
      2 ≤ drawWitness n u ∧ drawWitness n u ≤ n - 3) ∧
    (∀ v : ℤ, 2 ≤ v → v ≤ n - 3 → canDraw n v) ∧
    (∀ v : ℤ, 2 ≤ v → v ≤ n - 3 →
      {u : ℚ | 0 ≤ u ∧ u < 1 ∧ drawWitness n u = v} =
        Set.Ico (((v : ℚ) - 2) / ((n : ℚ) - 4))
          (((v : ℚ) - 1) / ((n : ℚ) - 4))) ∧
    (∀ v : ℤ, ((v : ℚ) - 1) / ((n : ℚ) - 4) - ((v : ℚ) - 2) / ((n : ℚ) - 4)
      = 1 / ((n : ℚ) - 4)) ∧
    ¬ canDraw n (n - 2) := by
  refine ⟨fun u h0 h1 => drawWitness_mem n hn u h0 h1,
    fun v h2 h3 => canDraw_of_mem n hn v h2 h3,
    fun v h2 h3 => drawWitness_preimage n hn v h2 h3,
    fun v => by rw [div_sub_div_same]; norm_num,
    fun h => ?_⟩
  obtain ⟨u, h0, h1, hd⟩ := h
  have hb := drawWitness_mem n hn u h0 h1
  omega

/-- Witness for the amended C4 at n = 7: the value 3 is drawable. -/
theorem drawWitness_uniform_on_interval_witness :
    (5 : ℤ) ≤ 7 ∧ canDraw 7 3 :=
  ⟨by norm_num,
   (drawWitness_uniform_on_interval 7 (by norm_num)).2.1 3 (by norm_num)
     (by norm_num)⟩

/-- C3: millerRabin is true on 2 and 3, false on every integer below 2
(including negatives), and false on every even integer above 2, for any
round count k >= 1 and any witness oracle. -/
theorem millerRabin_base_cases (k : ℕ) (_hk : 1 ≤ k) (ws : ℕ → ℕ) :
    millerRabin 2 k ws = true ∧ millerRabin 3 k ws = true ∧
    (∀ n : ℤ, n < 2 → millerRabin n k ws = false) ∧
    (∀ n : ℤ, 2 < n → 2 ∣ n → millerRabin n k ws = false) := by
  refine ⟨by norm_num [millerRabin], by norm_num [millerRabin], ?_, ?_⟩
  · intro n hn
    unfold millerRabin
    rw [if_neg (by omega), if_pos (Or.inl hn)]
  · intro n hn hdvd
    obtain ⟨t, rfl⟩ := hdvd
    unfold millerRabin
    rw [if_neg (by omega), if_pos (Or.inr (Int.mul_tmod_right 2 t))]

/-- Witness for C3 at k = 1, with the cases n = 2, n = -7 and n = 10. -/
theorem millerRabin_base_cases_witness :
    1 ≤ 1 ∧ millerRabin 2 1 (fun _ => 2) = true ∧
      millerRabin (-7) 1 (fun _ => 2) = false ∧
      millerRabin 10 1 (fun _ => 2) = false :=
  ⟨by norm_num, (millerRabin_base_cases 1 (by norm_num) (fun _ => 2)).1,
   (millerRabin_base_cases 1 (by norm_num) (fun _ => 2)).2.2.1 (-7) (by norm_num),
   (millerRabin_base_cases 1 (by norm_num) (fun _ => 2)).2.2.2 10 (by norm_num)
     (by norm_num)⟩

/-- C5: whenever processMessage publishes a response record, the record's
id and value are exactly the id and value properties of the incoming
parsed message, and the only added field is the prime verdict computed
from the converted value. -/
theorem processMessage_echoes_id_value (data : JSVal) (ws : ℕ → ℕ)
    (r : ResultRecord) (h : processMessage (some data) ws = .published r) :
    r.id = getProp data "id" ∧ r.value = getProp data "value" ∧
      ∃ v : ℤ, jsBigInt (getProp data "value") = some v ∧
        r.prime = millerRabin v 5 ws := by
  simp only [processMessage] at h
  split at h
  · exact absurd h (by simp)
  · split at h
    · exact absurd h (by simp)
    · rename_i v hv
      injection h with h2
      rw [← h2]
      exact ⟨rfl, rfl, v, hv, rfl⟩

set_option maxRecDepth 10000 in
/-- Witness for C5 on the end-to-end example record of the spec,
id 1 and value "97": the published record echoes both fields and carries
prime = true. -/
theorem processMessage_echoes_id_value_witness :
    processMessage
        (some (JSVal.obj [("id", JSVal.num 1), ("value", JSVal.str "97")]))
        (fun _ => 2) =
      ProcOutcome.published ⟨JSVal.num 1, JSVal.str "97", true⟩ ∧
    (JSVal.num 1 =
        getProp (JSVal.obj [("id", JSVal.num 1), ("value", JSVal.str "97")])
          "id" ∧
      JSVal.str "97" =
        getProp (JSVal.obj [("id", JSVal.num 1), ("value", JSVal.str "97")])
          "value" ∧
      ∃ v : ℤ, jsBigInt
            (getProp (JSVal.obj [("id", JSVal.num 1), ("value", JSVal.str "97")])
              "value") = some v ∧
          true = millerRabin v 5 (fun _ => 2)) := by
  have hmr : millerRabin 97 5 (fun _ => 2) = true := by
    simp [millerRabin, decompose, witnessLoop, witnessRound, squareLoop,
      modPow, modPowGo, show Int.tmod 97 2 = 1 from by decide]
  have hid : getProp (JSVal.obj [("id", JSVal.num 1), ("value", JSVal.str "97")])
      "id" = JSVal.num 1 := rfl
  have hval : getProp (JSVal.obj [("id", JSVal.num 1), ("value", JSVal.str "97")])
      "value" = JSVal.str "97" := rfl
  have heval : processMessage
      (some (JSVal.obj [("id", JSVal.num 1), ("value", JSVal.str "97")]))
      (fun _ => 2) =
      ProcOutcome.published ⟨JSVal.num 1, JSVal.str "97", true⟩ := by
    simp [processMessage, isUndefined,
      show hasOwn (JSVal.obj [("id", JSVal.num 1), ("value", JSVal.str "97")])
          "id" = true from by decide,
      show jsBigInt (JSVal.str "97") = some 97 from by decide,
      hmr, hid, hval]
  exact ⟨heval,
    processMessage_echoes_id_value
      (JSVal.obj [("id", JSVal.num 1), ("value", JSVal.str "97")])
      (fun _ => 2) ⟨JSVal.num 1, JSVal.str "97", true⟩ heval⟩

/-- C6: a message whose JSON lacks an id property or has undefined value is
dropped as missing-fields; one whose value does not convert to a BigInt is
dropped as bad-value; a JSON parse failure is caught and dropped; no such
message ever publishes a record; and a received message always reschedules
the poll loop, whatever the processing outcome was. -/
theorem processMessage_malformed_dropped (data : JSVal) (ws : ℕ → ℕ) :
    ((!hasOwn data "id" || isUndefined (getProp data "value")) = true →
      processMessage (some data) ws = .droppedMissingFields) ∧
    ((!hasOwn data "id" || isUndefined (getProp data "value")) = false →
      jsBigInt (getProp data "value") = none →
      processMessage (some data) ws = .droppedBadValue) ∧
    processMessage none ws = .droppedParseError ∧
    (((!hasOwn data "id" || isUndefined (getProp data "value")) = true ∨
        jsBigInt (getProp data "value") = none) →
      ∀ r, processMessage (some data) ws ≠ .published r) ∧
    (∀ payload, getMessageStep (.message payload) = .rescheduled) := by
  refine ⟨?_, ?_, rfl, ?_, fun _ => rfl⟩
  · intro hc
    simp [processMessage, hc]
  · intro hc hv
    simp [processMessage, hc, hv]
  · intro hor r
    rcases hor with hc | hv
    · simp [processMessage, hc]
    · by_cases hc : (!hasOwn data "id" || isUndefined (getProp data "value")) = true
      · simp [processMessage, hc]
      · simp only [Bool.not_eq_true] at hc
        simp [processMessage, hc, hv]

/-- Witness for C6 on a message that has a value but no id property. -/
theorem processMessage_malformed_dropped_witness :
    (!hasOwn (JSVal.obj [("value", JSVal.str "abc")]) "id" ||
        isUndefined (getProp (JSVal.obj [("value", JSVal.str "abc")]) "value"))
      = true ∧
    processMessage (some (JSVal.obj [("value", JSVal.str "abc")]))
        (fun _ => 2) = .droppedMissingFields ∧
    ∀ r, processMessage (some (JSVal.obj [("value", JSVal.str "abc")]))
        (fun _ => 2) ≠ .published r :=
  ⟨by decide,
   (processMessage_malformed_dropped (JSVal.obj [("value", JSVal.str "abc")])
      (fun _ => 2)).1 (by decide),
   (processMessage_malformed_dropped (JSVal.obj [("value", JSVal.str "abc")])
      (fun _ => 2)).2.2.2.1 (Or.inl (by decide))⟩

/-- C7: a receive that ends with no message available reschedules a fresh
polling iteration and, as long as that is the only outcome, the loop stays
alive forever; any other receive error halts the loop, and from that point
on no polling iteration ever happens again. -/
theorem pollLoop_reschedule_halt (evs : ℕ → RecvEvent) :
    getMessageStep .noMsg = .rescheduled ∧
    ((∀ n, evs n = .noMsg) → ∀ m, pollAlive evs m = true) ∧
    getMessageStep .failure = .halted ∧
    (∀ n, evs n = .failure → ∀ m, n < m → pollAlive evs m = false) := by
  refine ⟨rfl, ?_, rfl, ?_⟩
  · intro h m
    induction m with
    | zero => rfl
    | succ m ih => simp [pollAlive, ih, h m, getMessageStep]
  · intro n hn m hm
    have hdead : pollAlive evs (n + 1) = false := by
      simp [pollAlive, hn, getMessageStep]
    have mono : ∀ j, pollAlive evs (n + 1 + j) = false := by
      intro j
      induction j with
      | zero => exact hdead
      | succ j ih => simp [pollAlive, ih]
    have hm' : m = n + 1 + (m - n - 1) := by omega
    rw [hm']
    exact mono _

/-- Witness for C7: ten consecutive empty polls keep the loop alive, and a
broker fault on the first poll kills it for good. -/
theorem pollLoop_reschedule_halt_witness :
    pollAlive (fun _ => RecvEvent.noMsg) 10 = true ∧
    pollAlive (fun _ => RecvEvent.failure) 3 = false :=
  ⟨(pollLoop_reschedule_halt (fun _ => RecvEvent.noMsg)).2.1 (fun _ => rfl) 10,
   (pollLoop_reschedule_halt (fun _ => RecvEvent.failure)).2.2.2 0 rfl 3
     (by omega)⟩

/-- C8: a connect failure schedules a retry of the whole startConsumer
sequence after 5000 ms with no disconnect; a failure opening the input or
the output queue disconnects the session and schedules the same 5000 ms
retry; and since every failed attempt schedules the next one, the retry
sequence has no maximum attempt count: if every attempt fails, attempt n
is made for every n. -/
theorem startConsumer_retry_policy (env : StartEnv) (envs : ℕ → StartEnv) :
    (env.connectOk = false → startConsumer env = .retry 5000 false) ∧
    (env.connectOk = true → env.openInOk = false →
      startConsumer env = .retry 5000 true) ∧
    (env.connectOk = true → env.openInOk = true → env.openOutOk = false →
      startConsumer env = .retry 5000 true) ∧
    ((∀ n, startConsumer (envs n) ≠ .polling) →
      ∀ n, attemptMade envs n = true) := by
    refine ⟨?_, ?_, ?_, ?_⟩
    · intro h
      simp [startConsumer, h]
    · intro h1 h2
      simp [startConsumer, h1, h2]
    · intro h1 h2 h3
      simp [startConsumer, h1, h2, h3]
    · intro h n
      induction n with
      | zero => rfl
      | succ n ih => simp [attemptMade, ih, h n]

/-- Witness for C8: a failed connect, a failed input-queue open, and an
everywhere-failing environment that still makes attempt 4. -/
theorem startConsumer_retry_policy_witness :
    startConsumer ⟨false, true, true⟩ = .retry 5000 false ∧
    startConsumer ⟨true, false, true⟩ = .retry 5000 true ∧
    startConsumer ⟨true, true, false⟩ = .retry 5000 true ∧
    attemptMade (fun _ => ⟨false, true, true⟩) 4 = true :=
  ⟨(startConsumer_retry_policy ⟨false, true, true⟩ (fun _ => ⟨false, true, true⟩)).1 rfl,
   (startConsumer_retry_policy ⟨true, false, true⟩ (fun _ => ⟨false, true, true⟩)).2.1 rfl rfl,
   (startConsumer_retry_policy ⟨true, true, false⟩ (fun _ => ⟨false, true, true⟩)).2.2.1 rfl rfl rfl,
   (startConsumer_retry_policy ⟨false, true, true⟩ (fun _ => ⟨false, true, true⟩)).2.2.2
     (fun _ => by decide) 4⟩

/-- C9: the bytes handed to processMessage never exceed the fixed
1024-byte buffer, whatever length the callback reports, so a payload
longer than 1024 bytes is never processed intact. -/
theorem msgBuffer_bounded (payload : List ℕ) (len : ℕ) :
    (msgBuffer payload len).length ≤ bufferSize ∧
    (bufferSize < payload.length → msgBuffer payload len ≠ payload) := by
  have hlen : (msgBuffer payload len).length ≤ bufferSize := by
    simp [msgBuffer, fillBuffer, allocBuffer]
    omega
  refine ⟨hlen, fun hlong heq => ?_⟩
  have hl := congrArg List.length heq
  have hbs : bufferSize = 1024 := rfl
  omega

/-- Witness for C9 on a 1025-byte payload. -/
theorem msgBuffer_bounded_witness :
    bufferSize < (List.replicate 1025 7).length ∧
    msgBuffer (List.replicate 1025 7) 1025 ≠ List.replicate 1025 7 := by
  have hl : bufferSize < (List.replicate 1025 7).length := by
    rw [List.length_replicate]
    norm_num [bufferSize]
  exact ⟨hl, (msgBuffer_bounded (List.replicate 1025 7) 1025).2 hl⟩

/-- C10: with no output queue handle set, sendResponse drops the response:
it returns the logged-drop outcome, never the put outcome, and the only
path that attempts a put requires a handle. The function is total, so no
exception reaches the caller on the drop path. -/
theorem sendResponse_no_handle_drops (r : ResultRecord) :
    sendResponse none r = .droppedNoHandle ∧
    sendResponse none r ≠ .putAttempted ∧
    ∀ h : ℕ, sendResponse (some h) r = .putAttempted :=
  ⟨rfl, by simp [sendResponse], fun _ => rfl⟩

end Consumer
